import Mathlib

/-!
Shallow embedding of the bevy_mod_bcc crate (files src/reader.rs, src/mesh.rs,
src/lib.rs) for verification of its specification.

Modelling conventions:
* The byte source (`std::io::Read` / `futures_io::AsyncRead`) is a `List Nat`
  of bytes consumed from the front; `read_exact` fails with an `Io` error when
  fewer bytes remain, exactly as `read_exact` on a slice or file does.
* The host is 64-bit little-endian, compiled in the release profile: integer
  overflow wraps (two's complement), `debug_assert!` is disabled.  Panics that
  survive in release (slice index out of range, `Vec` capacity exceeding
  `isize::MAX` bytes, the `unreachable!`/`panic!` calls in mesh.rs) are
  modelled as an explicit `panic` outcome.
* `f32` control points are kept as their 32-bit little-endian bit patterns
  (`Nat` below `2 ^ 32`); the decoder copies raw bytes into the float buffer,
  so this is bit-exact.  `f32` negation in mesh.rs flips the sign bit.
-/

namespace BCC

/-- Word size constants of the modelled 64-bit host. -/
def U64MOD : Nat := 2 ^ 64

/-- Largest value of the host `usize` (64-bit host). -/
def USIZE_MAX : Nat := 2 ^ 64 - 1

/-- Largest value of the host `isize`; `Vec` allocations beyond this many
bytes panic ("capacity overflow"). -/
def ISIZE_MAX : Nat := 2 ^ 63 - 1

/-- Largest `u32` value; mesh.rs uses it as the primitive-restart sentinel
(`u32::MAX`). -/
def u32Max : Nat := 2 ^ 32 - 1

/-- Error enum `BinaryCurveCollectionParserError` from lib.rs (the payload of
the `Io` variant is irrelevant to control flow and dropped). -/
inductive ParserError where
  | invalidSignature
  | invalidPrecision
  | invalidCurve
  | invalidUpDirection
  | tooManyCurves
  | tooManyControlPoints
  | io
deriving DecidableEq, Repr

/-- Outcome of running a fallible Rust function: `Ok`, a returned
`BinaryCurveCollectionParserError`, or a panic/abort. -/
inductive PResult (α : Type) where
  | ok (value : α)
  | err (e : ParserError)
  | panic
deriving DecidableEq, Repr

/-- Model of `read_exact` on a byte source: returns the first `k` bytes and
the rest of the stream, or `none` (an `Io` error) when the source is too
short. -/
def readExact (k : Nat) (s : List Nat) : Option (List Nat × List Nat) :=
  if k ≤ s.length then some (s.take k, s.drop k) else none

/-- Little-endian byte decoding (`u64::from_le_bytes`, `i32::from_le_bytes`
and the raw float-buffer fill all read bytes least-significant first). -/
def fromLeBytes : List Nat → Nat
  | [] => 0
  | b :: rest => b + 256 * fromLeBytes rest

/-- Reinterpretation of a `u32` bit pattern as an `i32` (two's complement),
as done by `i32::from_le_bytes`. -/
def toI32 (v : Nat) : Int :=
  if v % 2 ^ 32 < 2 ^ 31 then ((v % 2 ^ 32 : Nat) : Int)
  else ((v % 2 ^ 32 : Nat) : Int) - 2 ^ 32

/-- The release-profile behaviour of `i32::abs`: two's-complement wrapping,
so `i32::MIN` maps to itself and stays negative. -/
def i32AbsWrapping (x : Int) : Int :=
  if x = -(2 ^ 31) then -(2 ^ 31) else if x < 0 then -x else x

/-- Decoding of the raw bytes written into the `f32` buffer: each group of 4
little-endian bytes is one `f32` bit pattern.  A trailing group shorter than
4 bytes cannot occur (reads are multiples of 12 bytes). -/
def bytesToU32s : List Nat → List Nat
  | b0 :: b1 :: b2 :: b3 :: rest => fromLeBytes [b0, b1, b2, b3] :: bytesToU32s rest
  | _ => []

/-- Embedding of `BinaryCurveCollection::read_curves` (reader.rs).  `fuel` is
the number of loop iterations (the zip of `looping` and
`first_control_points`, i.e. the number of curves), `offset` the running
`previous_control_point_start`, `rem` the number of `f32` slots left in the
flat `control_points` buffer.  Returns the remaining stream, the `looping`
flags, the `first_control_points` entries (including the final one written
after the loop) and the written `f32` bit patterns.  The slice expression
`control_points[..(size * 3)]` panics when the buffer is too short, before
any byte of this curve's points is read. -/
def readCurves : Nat → List Nat → Nat → Nat →
    PResult (List Nat × List Bool × List Nat × List Nat)
  | 0, s, offset, _ => .ok (s, [], [offset], [])
  | fuel + 1, s, offset, rem =>
    match readExact 4 s with
    | none => .err .io
    | some (bs, s1) =>
      let n : Int := toI32 (fromLeBytes bs)
      let isLooping : Bool := decide (n < 0)
      let a : Int := i32AbsWrapping n
      if a < 0 then .err .tooManyControlPoints
      else
        let size : Nat := a.toNat
        if rem < size * 3 then .panic
        else
          match readExact (size * 4 * 3) s1 with
          | none => .err .io
          | some (fbs, s2) =>
            match readCurves fuel s2 (offset + size) (rem - size * 3) with
            | .ok (s3, loops, firsts, cps) =>
                .ok (s3, isLooping :: loops, offset :: firsts, bytesToU32s fbs ++ cps)
            | .err e => .err e
            | .panic => .panic

/-- Header struct `BinaryCurveCollectionHeader` from lib.rs. -/
structure BinaryCurveCollectionHeader where
  signature : List Nat
  precision : Nat
  curve : List Nat
  dimensions : Nat
  upDirection : Nat
  numberOfCurves : Nat
  numberOfControlPoints : Nat
  fileInformation : List Nat
deriving DecidableEq, Repr

/-- Struct `BinaryCurveCollection` from lib.rs.  `controlPoints` holds the
`f32` bit patterns of the flat buffer. -/
structure BinaryCurveCollection where
  header : BinaryCurveCollectionHeader
  looping : List Bool
  firstControlPoints : List Nat
  controlPoints : List Nat
deriving DecidableEq, Repr

/-- Embedding of `BinaryCurveCollection::parse` (reader.rs).  Field by field:
signature, precision (mismatch returns `InvalidSignature`, as the source
does), curve type (likewise `InvalidSignature`), dimensions (unchecked),
up direction, curve count, control-point count, 40 bytes of file
information; then the three buffer allocations (panicking past
`isize::MAX` bytes, like `Vec`), then `read_curves`.  The `usize::try_from`
conversions of the two `u64` counts never fail on the 64-bit host but are
kept for structure.  The control-point buffer is allocated zero-filled with
`(p * 3)` (wrapping) slots and only a prefix is overwritten. -/
def parse (input : List Nat) : PResult BinaryCurveCollection :=
  match readExact 3 input with
  | none => .err .io
  | some (signature, s1) =>
    if signature ≠ [66, 67, 67] then .err .invalidSignature
    else
      match readExact 1 s1 with
      | none => .err .io
      | some (precisionBytes, s2) =>
        let precision := fromLeBytes precisionBytes
        if precision ≠ 0x44 then .err .invalidSignature
        else
          match readExact 2 s2 with
          | none => .err .io
          | some (curve, s3) =>
            if curve ≠ [67, 48] then .err .invalidSignature
            else
              match readExact 1 s3 with
              | none => .err .io
              | some (dimensionsBytes, s4) =>
                let dimensions := fromLeBytes dimensionsBytes
                match readExact 1 s4 with
                | none => .err .io
                | some (upBytes, s5) =>
                  let upDirection := fromLeBytes upBytes
                  if ¬(1 ≤ upDirection ∧ upDirection ≤ 2) then .err .invalidUpDirection
                  else
                    match readExact 8 s5 with
                    | none => .err .io
                    | some (curvesBytes, s6) =>
                      let numberOfCurves := fromLeBytes curvesBytes % U64MOD
                      match readExact 8 s6 with
                      | none => .err .io
                      | some (controlPointsBytes, s7) =>
                        let numberOfControlPoints := fromLeBytes controlPointsBytes % U64MOD
                        match readExact 40 s7 with
                        | none => .err .io
                        | some (fileInformation, s8) =>
                          if USIZE_MAX < numberOfCurves then .err .tooManyCurves
                          else if USIZE_MAX < numberOfControlPoints then .err .tooManyControlPoints
                          else if ISIZE_MAX < numberOfCurves * 1 then .panic
                          else if ISIZE_MAX < ((numberOfCurves + 1) % U64MOD) * 8 then .panic
                          else
                            let cpLen := (numberOfControlPoints * 3) % U64MOD
                            if ISIZE_MAX < cpLen * 4 then .panic
                            else
                              match readCurves numberOfCurves s8 0 cpLen with
                              | .ok (_, loops, firsts, cps) =>
                                .ok {
                                  header := {
                                    signature := signature
                                    precision := precision
                                    curve := curve
                                    dimensions := dimensions
                                    upDirection := upDirection
                                    numberOfCurves := numberOfCurves
                                    numberOfControlPoints := numberOfControlPoints
                                    fileInformation := fileInformation }
                                  looping := loops
                                  firstControlPoints := firsts
                                  controlPoints :=
                                    cps ++ List.replicate (cpLen - cps.length) 0 }
                              | .err e => .err e
                              | .panic => .panic

/-- Embedding of `BinaryCurveCollection::read_curves_async` (reader.rs).
The body is the transcription of the async source, which is statement for
statement the code of the blocking variant with `.await` on each read; the
suspension points have no effect on the value computed from a given byte
stream. -/
def readCurvesAsync : Nat → List Nat → Nat → Nat →
    PResult (List Nat × List Bool × List Nat × List Nat)
  | 0, s, offset, _ => .ok (s, [], [offset], [])
  | fuel + 1, s, offset, rem =>
    match readExact 4 s with
    | none => .err .io
    | some (bs, s1) =>
      let n : Int := toI32 (fromLeBytes bs)
      let isLooping : Bool := decide (n < 0)
      let a : Int := i32AbsWrapping n
      if a < 0 then .err .tooManyControlPoints
      else
        let size : Nat := a.toNat
        if rem < size * 3 then .panic
        else
          match readExact (size * 4 * 3) s1 with
          | none => .err .io
          | some (fbs, s2) =>
            match readCurvesAsync fuel s2 (offset + size) (rem - size * 3) with
            | .ok (s3, loops, firsts, cps) =>
                .ok (s3, isLooping :: loops, offset :: firsts, bytesToU32s fbs ++ cps)
            | .err e => .err e
            | .panic => .panic

/-- Embedding of `BinaryCurveCollection::parse_async` (reader.rs), the
transcription of the suspending source, which reads the same fields with the
same checks as `parse` and calls `read_curves_async`. -/
def parseAsync (input : List Nat) : PResult BinaryCurveCollection :=
  match readExact 3 input with
  | none => .err .io
  | some (signature, s1) =>
    if signature ≠ [66, 67, 67] then .err .invalidSignature
    else
      match readExact 1 s1 with
      | none => .err .io
      | some (precisionBytes, s2) =>
        let precision := fromLeBytes precisionBytes
        if precision ≠ 0x44 then .err .invalidSignature
        else
          match readExact 2 s2 with
          | none => .err .io
          | some (curve, s3) =>
            if curve ≠ [67, 48] then .err .invalidSignature
            else
              match readExact 1 s3 with
              | none => .err .io
              | some (dimensionsBytes, s4) =>
                let dimensions := fromLeBytes dimensionsBytes
                match readExact 1 s4 with
                | none => .err .io
                | some (upBytes, s5) =>
                  let upDirection := fromLeBytes upBytes
                  if ¬(1 ≤ upDirection ∧ upDirection ≤ 2) then .err .invalidUpDirection
                  else
                    match readExact 8 s5 with
                    | none => .err .io
                    | some (curvesBytes, s6) =>
                      let numberOfCurves := fromLeBytes curvesBytes % U64MOD
                      match readExact 8 s6 with
                      | none => .err .io
                      | some (controlPointsBytes, s7) =>
                        let numberOfControlPoints := fromLeBytes controlPointsBytes % U64MOD
                        match readExact 40 s7 with
                        | none => .err .io
                        | some (fileInformation, s8) =>
                          if USIZE_MAX < numberOfCurves then .err .tooManyCurves
                          else if USIZE_MAX < numberOfControlPoints then .err .tooManyControlPoints
                          else if ISIZE_MAX < numberOfCurves * 1 then .panic
                          else if ISIZE_MAX < ((numberOfCurves + 1) % U64MOD) * 8 then .panic
                          else
                            let cpLen := (numberOfControlPoints * 3) % U64MOD
                            if ISIZE_MAX < cpLen * 4 then .panic
                            else
                              match readCurvesAsync numberOfCurves s8 0 cpLen with
                              | .ok (_, loops, firsts, cps) =>
                                .ok {
                                  header := {
                                    signature := signature
                                    precision := precision
                                    curve := curve
                                    dimensions := dimensions
                                    upDirection := upDirection
                                    numberOfCurves := numberOfCurves
                                    numberOfControlPoints := numberOfControlPoints
                                    fileInformation := fileInformation }
                                  looping := loops
                                  firstControlPoints := firsts
                                  controlPoints :=
                                    cps ++ List.replicate (cpLen - cps.length) 0 }
                              | .err e => .err e
                              | .panic => .panic

/-- Geometry output of `BinaryCurveCollectionMeshBuilder::build` (mesh.rs):
the `ATTRIBUTE_POSITION` vertex buffer (one `f32` triple per vertex, kept as
bit patterns) and the `u32` index buffer. -/
structure MeshData where
  positions : List (Nat × Nat × Nat)
  indices : List Nat
deriving DecidableEq, Repr

/-- Negation of an `f32`, on bit patterns: flips the sign bit. -/
def negF32 (x : Nat) : Nat := if x < 2 ^ 31 then x + 2 ^ 31 else x - 2 ^ 31

/-- Embedding of `BinaryCurveCollectionMeshBuilder::y_up` (mesh.rs): a chunk
that does not have exactly 3 components hits `unreachable!` (a panic,
modelled as `none`). -/
def yUp : List Nat → Option (Nat × Nat × Nat)
  | [a, b, c] => some (a, b, c)
  | _ => none

/-- Embedding of `BinaryCurveCollectionMeshBuilder::z_up` (mesh.rs):
`[x, y, z]` becomes `(x, -z, y)`; a chunk without exactly 3 components hits
`unreachable!`. -/
def zUp : List Nat → Option (Nat × Nat × Nat)
  | [a, b, c] => some (a, negF32 c, b)
  | _ => none

/-- Model of `slice::chunks(3)`: groups of 3 in order, the last group
possibly shorter. -/
def chunks3 : List Nat → List (List Nat)
  | [] => []
  | a :: b :: c :: rest => [a, b, c] :: chunks3 rest
  | rest => [rest]

/-- Model of `chunks(3).map(mapper).collect()` where the mapper can panic:
the panic propagates (`none`). -/
def mapTriples (f : List Nat → Option (Nat × Nat × Nat)) :
    List (List Nat) → Option (List (Nat × Nat × Nat))
  | [] => some []
  | ch :: rest =>
    match f ch with
    | none => none
    | some t =>
      match mapTriples f rest with
      | none => none
      | some ts => some (t :: ts)

/-- Model of `slice::windows(2)` on the `first_control_points` buffer:
adjacent pairs in order. -/
def windows2 : List Nat → List (Nat × Nat)
  | a :: b :: rest => (a, b) :: windows2 (b :: rest)
  | _ => []

/-- The loop of `MeshBuilder::build` (mesh.rs lines 76-96) over the zip of
`first_control_points.windows(2)` and `looping`, with `acc` the `indices`
vector built so far.  For a window `[l, r]`: `last` is `r ==
number_of_control_points`; `u32::try_from` of `r` and then of `l` panics
(`none`) past `u32::MAX`; then the loop appends `l..r`, `l` again when the
curve is looping, and `u32::MAX` when the curve is not `last`. -/
def buildIndicesLoop (p : Nat) : List ((Nat × Nat) × Bool) → List Nat → Option (List Nat)
  | [], acc => some acc
  | ((l, r), isLooping) :: rest, acc =>
    let isLast : Bool := decide (r = p)
    if u32Max < r then none
    else if u32Max < l then none
    else
      buildIndicesLoop p rest
        (acc ++ List.range' l (r - l) ++ (if isLooping then [l] else []) ++
          (if isLast then [] else [u32Max]))

/-- Embedding of `MeshBuilder::build` for `BinaryCurveCollectionMeshBuilder`
(mesh.rs).  In source order: the `usize::try_from` of the control-point
count (`unreachable!` on failure, impossible on the 64-bit host), the count
of looping curves, the vertex buffer (panic unless `dimensions == 3` and the
up direction is 1 or 2), the index capacity `number_of_control_points +
looping_curves + looping.len() - 1` (wrapping subtraction;
`Vec::with_capacity` panics past `isize::MAX` bytes), and the index loop.
Panics are `none`. -/
def build (bcc : BinaryCurveCollection) : Option MeshData :=
  if USIZE_MAX < bcc.header.numberOfControlPoints then none
  else
    let numberOfControlPoints := bcc.header.numberOfControlPoints
    let loopingCurves := (bcc.looping.filter (fun b => b)).length
    match
      (if bcc.header.dimensions = 3 then
        (if bcc.header.upDirection = 1 then mapTriples yUp (chunks3 bcc.controlPoints)
         else if bcc.header.upDirection = 2 then mapTriples zUp (chunks3 bcc.controlPoints)
         else none)
       else none) with
    | none => none
    | some vertices =>
      let indicesLen :=
        (((numberOfControlPoints + loopingCurves) % U64MOD + bcc.looping.length) % U64MOD
          + (U64MOD - 1)) % U64MOD
      if ISIZE_MAX < indicesLen * 4 then none
      else
        match buildIndicesLoop numberOfControlPoints
            ((windows2 bcc.firstControlPoints).zip bcc.looping) [] with
        | none => none
        | some indices => some { positions := vertices, indices := indices }

/-- Derived form of one iteration of the index loop in `MeshBuilder::build`:
the ascending indices `l, l+1, ..., r-1`, then `l` again when the curve is
looping, then the restart sentinel when the curve's end offset is not the
total control-point count. -/
def indexSegment (p : Nat) (x : (Nat × Nat) × Bool) : List Nat :=
  List.range' x.1.1 (x.1.2 - x.1.1) ++ (if x.2 then [x.1.1] else []) ++
    (if x.1.2 = p then [] else [u32Max])

/-- The part of a curve's index segment that refers to actual control points:
the ascending range and the optional closing repeat, without the restart
separator. -/
def realSegment (x : (Nat × Nat) × Bool) : List Nat :=
  List.range' x.1.1 (x.1.2 - x.1.1) ++ (if x.2 then [x.1.1] else [])

/-- Modelled from the spec (section 4.2, step 2): one curve-table iteration
that sets the looping flag to `n < 0`, uses point count `|n|`, and fails
with `TooManyControlPoints` exactly when `|n|` is not representable in the
host `usize`.  Used to compare one step of `readCurves` against the spec's
words. -/
def readCurvesStepSpec (b0 b1 b2 b3 : Nat) (rest : List Nat)
    (fuel offset rem : Nat) : PResult (List Nat × List Bool × List Nat × List Nat) :=
  let n : Int := toI32 (fromLeBytes [b0, b1, b2, b3])
  let size : Nat := n.natAbs
  if USIZE_MAX < size then .err .tooManyControlPoints
  else if rem < size * 3 then .panic
  else
    match readExact (size * 4 * 3) rest with
    | none => .err .io
    | some (fbs, s2) =>
      match readCurves fuel s2 (offset + size) (rem - size * 3) with
      | .ok (s3, loops, firsts, cps) =>
          .ok (s3, decide (n < 0) :: loops, offset :: firsts, bytesToU32s fbs ++ cps)
      | .err e => .err e
      | .panic => .panic

/-- The example file from the doc test in lib.rs: one non-looping curve with
one control point `(0, 1, 2)`, Z-up. -/
def exInput : List Nat :=
  [66, 67, 67, 0x44, 67, 48, 3, 2] ++ [1, 0, 0, 0, 0, 0, 0, 0] ++
    [1, 0, 0, 0, 0, 0, 0, 0] ++ List.replicate 40 0 ++
    [1, 0, 0, 0] ++ [0, 0, 0, 0] ++ [0, 0, 0x80, 0x3f] ++ [0, 0, 0, 0x40]

/-- The collection decoded from `exInput`. -/
def exCollection : BinaryCurveCollection :=
  { header :=
      { signature := [66, 67, 67], precision := 0x44, curve := [67, 48],
        dimensions := 3, upDirection := 2, numberOfCurves := 1,
        numberOfControlPoints := 1, fileInformation := List.replicate 40 0 }
    looping := [false]
    firstControlPoints := [0, 1]
    controlPoints := [0, 0x3f800000, 0x40000000] }

/-- The mesh built from `exCollection`: the Z-up point `(0, 1, 2)` becomes
the Y-up vertex `(0, -2, 1)` (bit patterns `(0, 0xC0000000, 0x3F800000)`),
and the single strip is `[0]` with no separator. -/
def exMeshData : MeshData :=
  { positions := [(0, 0xC0000000, 0x3f800000)], indices := [0] }

/-- File with valid signature `BCC` but precision byte `0x45`. -/
def badPrecisionInput : List Nat := [66, 67, 67, 0x45]

/-- File with valid signature and precision but curve-type bytes `XX`. -/
def badCurveInput : List Nat := [66, 67, 67, 0x44, 88, 88]

/-- File with a valid header declaring zero curves and zero control
points. -/
def emptyCollectionInput : List Nat :=
  [66, 67, 67, 0x44, 67, 48, 3, 1] ++ List.replicate 8 0 ++ List.replicate 8 0 ++
    List.replicate 40 0

/-- The collection decoded from `emptyCollectionInput`. -/
def emptyCollection : BinaryCurveCollection :=
  { header :=
      { signature := [66, 67, 67], precision := 0x44, curve := [67, 48],
        dimensions := 3, upDirection := 1, numberOfCurves := 0,
        numberOfControlPoints := 0, fileInformation := List.replicate 40 0 }
    looping := []
    firstControlPoints := [0]
    controlPoints := [] }

/-- File with a valid header declaring one curve and one control point, whose
single curve record carries point count 0 (so the running offset stays 0,
short of the declared total). -/
def shortSumInput : List Nat :=
  [66, 67, 67, 0x44, 67, 48, 3, 1] ++ [1, 0, 0, 0, 0, 0, 0, 0] ++
    [1, 0, 0, 0, 0, 0, 0, 0] ++ List.replicate 40 0 ++ [0, 0, 0, 0]

/-- The collection decoded from `shortSumInput`: `first_control_points`
ends at 0 although the header declares 1 control point. -/
def shortSumCollection : BinaryCurveCollection :=
  { header :=
      { signature := [66, 67, 67], precision := 0x44, curve := [67, 48],
        dimensions := 3, upDirection := 1, numberOfCurves := 1,
        numberOfControlPoints := 1, fileInformation := List.replicate 40 0 }
    looping := [false]
    firstControlPoints := [0, 0]
    controlPoints := [0, 0, 0] }

/-- File with two curves: the first has the 3 declared control points, the
second has 0, so the first curve already ends at the total offset. -/
def trailingEmptyCurveInput : List Nat :=
  [66, 67, 67, 0x44, 67, 48, 3, 1] ++ [2, 0, 0, 0, 0, 0, 0, 0] ++
    [3, 0, 0, 0, 0, 0, 0, 0] ++ List.replicate 40 0 ++
    [3, 0, 0, 0] ++ List.replicate 36 0 ++ [0, 0, 0, 0]

/-- The collection decoded from `trailingEmptyCurveInput`. -/
def trailingEmptyCurveCollection : BinaryCurveCollection :=
  { header :=
      { signature := [66, 67, 67], precision := 0x44, curve := [67, 48],
        dimensions := 3, upDirection := 1, numberOfCurves := 2,
        numberOfControlPoints := 3, fileInformation := List.replicate 40 0 }
    looping := [false, false]
    firstControlPoints := [0, 3, 3]
    controlPoints := List.replicate 9 0 }

/-- The mesh built from `trailingEmptyCurveCollection`: no restart separator
is emitted after the first curve because its end offset already equals the
total, so the index buffer has length 3, not 3 + 0 + (2 - 1) = 4. -/
def trailingEmptyCurveMeshData : MeshData :=
  { positions := [(0, 0, 0), (0, 0, 0), (0, 0, 0)], indices := [0, 1, 2] }

/-- File with a valid header declaring one curve and zero control points,
whose single curve record asks for 1 point: the slice of the empty float
buffer is out of range. -/
def overrunInput : List Nat :=
  [66, 67, 67, 0x44, 67, 48, 3, 1] ++ [1, 0, 0, 0, 0, 0, 0, 0] ++
    List.replicate 8 0 ++ List.replicate 40 0 ++ [1, 0, 0, 0]

/-- File with a valid header declaring one curve and zero control points,
whose single curve record is the count `i32::MIN` (bytes `00 00 00 80`). -/
def minCountInput : List Nat :=
  [66, 67, 67, 0x44, 67, 48, 3, 1] ++ [1, 0, 0, 0, 0, 0, 0, 0] ++
    List.replicate 8 0 ++ List.replicate 40 0 ++ [0, 0, 0, 128]

theorem readExact_some {k : Nat} {s a b : List Nat}
    (h : readExact k s = some (a, b)) : a.length = k := by
  unfold readExact at h
  split at h
  · simp only [Option.some.injEq, Prod.mk.injEq] at h
    obtain ⟨h1, _⟩ := h
    subst h1
    simpa using by assumption
  · exact absurd h (by simp)

theorem bytesToU32s_length : ∀ (bs : List Nat), (bytesToU32s bs).length = bs.length / 4
  | [] => rfl
  | [_] => by simp [bytesToU32s]
  | [_, _] => by simp [bytesToU32s]
  | [_, _, _] => by simp [bytesToU32s]
  | _ :: _ :: _ :: _ :: rest => by
    simp only [bytesToU32s, List.length_cons, bytesToU32s_length rest]
    omega

theorem windows2_cons_cons (a b : Nat) (t : List Nat) :
    windows2 (a :: b :: t) = (a, b) :: windows2 (b :: t) := rfl

/-- Invariants of a successful `readCurves` run: lengths of the two lists,
first entry equal to the incoming offset, monotonicity, strict growth on
looping curves, and the final offset bounded by the buffer capacity, with
exactly three values written per point. -/
theorem readCurves_ok_inv :
    ∀ (fuel : Nat) (s : List Nat) (offset rem : Nat) (s2 : List Nat)
      (loops : List Bool) (firsts : List Nat) (cps : List Nat),
      readCurves fuel s offset rem = .ok (s2, loops, firsts, cps) →
      loops.length = fuel ∧
      firsts.length = fuel + 1 ∧
      firsts.head? = some offset ∧
      List.Chain' (fun a b => a ≤ b) firsts ∧
      (∀ x ∈ (windows2 firsts).zip loops, x.1.1 ≤ x.1.2 ∧ (x.2 = true → x.1.1 < x.1.2)) ∧
      (∃ lastVal, firsts.getLast? = some lastVal ∧ offset ≤ lastVal ∧
        3 * (lastVal - offset) ≤ rem ∧ cps.length = 3 * (lastVal - offset)) := by
  intro fuel
  induction fuel with
  | zero =>
    intro s offset rem s2 loops firsts cps h
    simp only [readCurves, PResult.ok.injEq, Prod.mk.injEq] at h
    obtain ⟨-, h2, h3, h4⟩ := h
    subst h2; subst h3; subst h4
    refine ⟨rfl, rfl, rfl, List.chain'_singleton offset, ?_, offset, rfl, le_rfl, ?_, ?_⟩
    · intro x hx
      simp [windows2] at hx
    · omega
    · simp
  | succ fuel ih =>
    intro s offset rem s2 loops firsts cps h
    simp only [readCurves] at h
    cases hre : readExact 4 s with
    | none => rw [hre] at h; exact absurd h (by simp)
    | some v =>
      obtain ⟨bs, s1⟩ := v
      rw [hre] at h
      simp only at h
      by_cases hneg : i32AbsWrapping (toI32 (fromLeBytes bs)) < 0
      · rw [if_pos hneg] at h
        exact absurd h (by simp)
      · rw [if_neg hneg] at h
        by_cases hrem : rem < (i32AbsWrapping (toI32 (fromLeBytes bs))).toNat * 3
        · rw [if_pos hrem] at h
          exact absurd h (by simp)
        · rw [if_neg hrem] at h
          cases hre2 : readExact ((i32AbsWrapping (toI32 (fromLeBytes bs))).toNat * 4 * 3) s1 with
          | none => rw [hre2] at h; exact absurd h (by simp)
          | some w =>
            obtain ⟨fbs, sf⟩ := w
            rw [hre2] at h
            simp only at h
            cases hrec : readCurves fuel sf
                (offset + (i32AbsWrapping (toI32 (fromLeBytes bs))).toNat)
                (rem - (i32AbsWrapping (toI32 (fromLeBytes bs))).toNat * 3) with
            | ok r =>
              obtain ⟨s3, loops1, firsts1, cps1⟩ := r
              rw [hrec] at h
              simp only [PResult.ok.injEq, Prod.mk.injEq] at h
              obtain ⟨-, hl, hf, hc⟩ := h
              subst hl; subst hf; subst hc
              obtain ⟨ihl, ihf, ihh, ihchain, ihwin, lastVal, ihlast, ihle, ihrem, ihcps⟩ :=
                ih sf (offset + (i32AbsWrapping (toI32 (fromLeBytes bs))).toNat)
                  (rem - (i32AbsWrapping (toI32 (fromLeBytes bs))).toNat * 3) s3 loops1 firsts1 cps1 hrec
              set size := (i32AbsWrapping (toI32 (fromLeBytes bs))).toNat with hsize
              cases firsts1 with
              | nil => simp at ihh
              | cons f0 t =>
                have hf0 : f0 = offset + size := by
                  simpa using ihh
                subst hf0
                refine ⟨by simp [ihl], by simpa using ihf, rfl, ?_, ?_, lastVal, ?_, ?_, ?_, ?_⟩
                · exact List.chain'_cons.mpr ⟨Nat.le_add_right offset size, ihchain⟩
                · intro x hx
                  rw [windows2_cons_cons, List.zip_cons_cons] at hx
                  rcases List.mem_cons.mp hx with hx | hx
                  · subst hx
                    refine ⟨Nat.le_add_right offset size, ?_⟩
                    intro hloop
                    have hn : toI32 (fromLeBytes bs) < 0 := by
                      simpa using hloop
                    have hpos : 1 ≤ size := by
                      rw [hsize]
                      by_cases hmin : toI32 (fromLeBytes bs) = -(2 ^ 31)
                      · exfalso
                        apply hneg
                        unfold i32AbsWrapping
                        rw [if_pos hmin]
                        decide
                      · unfold i32AbsWrapping
                        rw [if_neg hmin, if_pos hn]
                        omega
                    show offset < offset + size
                    omega
                  · exact ihwin x hx
                · simpa [List.getLast?_cons_cons] using ihlast
                · omega
                · omega
                · have hfbs : fbs.length = size * 4 * 3 := readExact_some hre2
                  simp only [List.length_append, bytesToU32s_length, hfbs, ihcps]
                  omega
            | err e => rw [hrec] at h; exact absurd h (by simp)
            | panic => rw [hrec] at h; exact absurd h (by simp)

/-- The suspending curve loop computes the same function of the byte stream
as the blocking one. -/
theorem readCurvesAsync_eq_readCurves :
    ∀ (fuel : Nat) (s : List Nat) (offset rem : Nat),
      readCurvesAsync fuel s offset rem = readCurves fuel s offset rem := by
  intro fuel
  induction fuel with
  | zero => intro s offset rem; rfl
  | succ fuel ih =>
    intro s offset rem
    simp only [readCurvesAsync, readCurves, ih]

/-- Inversion of a successful `parse`: the collection's buffers are exactly
the output of `readCurves` run with offset 0 over a zero-filled buffer of
`(p * 3) mod 2 ^ 64` float slots, padded back with the untouched zero fill,
and the header passed all checks. -/
theorem parse_ok_inv (input : List Nat) (c : BinaryCurveCollection)
    (hp : parse input = .ok c) :
    ∃ s8 s9 loops firsts cps,
      readCurves c.header.numberOfCurves s8 0
          ((c.header.numberOfControlPoints * 3) % U64MOD) = .ok (s9, loops, firsts, cps) ∧
      c.looping = loops ∧
      c.firstControlPoints = firsts ∧
      c.controlPoints =
        cps ++ List.replicate (((c.header.numberOfControlPoints * 3) % U64MOD) - cps.length) 0 ∧
      c.header.numberOfControlPoints < U64MOD ∧
      c.header.numberOfCurves < U64MOD ∧
      ((c.header.numberOfControlPoints * 3) % U64MOD) * 4 ≤ ISIZE_MAX ∧
      1 ≤ c.header.upDirection ∧ c.header.upDirection ≤ 2 := by
  unfold parse at hp
  cases h1 : readExact 3 input with
  | none => rw [h1] at hp; exact absurd hp (by simp)
  | some v1 =>
    obtain ⟨sig, s1⟩ := v1
    rw [h1] at hp
    simp only at hp
    split at hp
    · exact absurd hp (by simp)
    cases h2 : readExact 1 s1 with
    | none => rw [h2] at hp; exact absurd hp (by simp)
    | some v2 =>
      obtain ⟨precB, s2⟩ := v2
      rw [h2] at hp
      simp only at hp
      split at hp
      · exact absurd hp (by simp)
      cases h3 : readExact 2 s2 with
      | none => rw [h3] at hp; exact absurd hp (by simp)
      | some v3 =>
        obtain ⟨curveB, s3⟩ := v3
        rw [h3] at hp
        simp only at hp
        split at hp
        · exact absurd hp (by simp)
        cases h4 : readExact 1 s3 with
        | none => rw [h4] at hp; exact absurd hp (by simp)
        | some v4 =>
          obtain ⟨dimB, s4⟩ := v4
          rw [h4] at hp
          simp only at hp
          cases h5 : readExact 1 s4 with
          | none => rw [h5] at hp; exact absurd hp (by simp)
          | some v5 =>
            obtain ⟨upB, s5⟩ := v5
            rw [h5] at hp
            simp only at hp
            split at hp
            · exact absurd hp (by simp)
            cases h6 : readExact 8 s5 with
            | none => rw [h6] at hp; exact absurd hp (by simp)
            | some v6 =>
              obtain ⟨curvesB, s6⟩ := v6
              rw [h6] at hp
              simp only at hp
              cases h7 : readExact 8 s6 with
              | none => rw [h7] at hp; exact absurd hp (by simp)
              | some v7 =>
                obtain ⟨cpB, s7⟩ := v7
                rw [h7] at hp
                simp only at hp
                cases h8 : readExact 40 s7 with
                | none => rw [h8] at hp; exact absurd hp (by simp)
                | some v8 =>
                  obtain ⟨fileInfo, s8⟩ := v8
                  rw [h8] at hp
                  simp only at hp
                  split at hp
                  · exact absurd hp (by simp)
                  split at hp
                  · exact absurd hp (by simp)
                  split at hp
                  · exact absurd hp (by simp)
                  split at hp
                  · exact absurd hp (by simp)
                  split at hp
                  · exact absurd hp (by simp)
                  cases h9 : readCurves (fromLeBytes curvesB % U64MOD) s8 0
                      ((fromLeBytes cpB % U64MOD * 3) % U64MOD) with
                  | ok r =>
                    obtain ⟨s9, loops, firsts, cps⟩ := r
                    rw [h9] at hp
                    simp only [PResult.ok.injEq] at hp
                    subst hp
                    refine ⟨s8, s9, loops, firsts, cps, h9, rfl, rfl, rfl, ?_, ?_, ?_, ?_, ?_⟩
                    · show fromLeBytes cpB % U64MOD < U64MOD
                      exact Nat.mod_lt _ (by decide)
                    · show fromLeBytes curvesB % U64MOD < U64MOD
                      exact Nat.mod_lt _ (by decide)
                    · show (fromLeBytes cpB % U64MOD * 3) % U64MOD * 4 ≤ ISIZE_MAX
                      omega
                    · show 1 ≤ fromLeBytes upB
                      omega
                    · show fromLeBytes upB ≤ 2
                      omega
                  | err e => rw [h9] at hp; exact absurd hp (by simp)
                  | panic => rw [h9] at hp; exact absurd hp (by simp)

/-- A successful index loop yields the concatenation, in curve order, of
each curve's segment, and every visited offset passed the `u32::try_from`
bound checks. -/
theorem buildIndicesLoop_some (p : Nat) :
    ∀ (pairs : List ((Nat × Nat) × Bool)) (acc res : List Nat),
      buildIndicesLoop p pairs acc = some res →
      res = acc ++ (pairs.map (indexSegment p)).flatten ∧
        ∀ x ∈ pairs, x.1.1 ≤ u32Max ∧ x.1.2 ≤ u32Max := by
  intro pairs
  induction pairs with
  | nil =>
    intro acc res h
    simp only [buildIndicesLoop, Option.some.injEq] at h
    subst h
    simp
  | cons hd tl ih =>
    intro acc res h
    obtain ⟨⟨l, r⟩, isLooping⟩ := hd
    simp only [buildIndicesLoop] at h
    split at h
    · exact absurd h (by simp)
    split at h
    · exact absurd h (by simp)
    obtain ⟨ihres, ihmem⟩ := ih _ res h
    constructor
    · rw [ihres]
      simp [indexSegment, List.append_assoc]
    · intro x hx
      rcases List.mem_cons.mp hx with hx | hx
      · subst hx
        refine ⟨?_, ?_⟩
        · show l ≤ u32Max
          omega
        · show r ≤ u32Max
          omega
      · exact ihmem x hx

/-- If any window's right offset exceeds `u32::MAX`, the index loop
panics. -/
theorem buildIndicesLoop_overflow (p : Nat) :
    ∀ (pairs : List ((Nat × Nat) × Bool)) (acc : List Nat) (x : (Nat × Nat) × Bool),
      x ∈ pairs → u32Max < x.1.2 → buildIndicesLoop p pairs acc = none := by
  intro pairs
  induction pairs with
  | nil =>
    intro acc x hx
    simp at hx
  | cons hd tl ih =>
    intro acc x hx hbig
    obtain ⟨⟨l, r⟩, isLooping⟩ := hd
    simp only [buildIndicesLoop]
    split
    · rfl
    split
    · rfl
    rcases List.mem_cons.mp hx with hx | hx
    · subst hx
      exact absurd (show u32Max < r from hbig) (by omega)
    · exact ih _ x hx hbig

/-- Inversion of a successful `build`: dimensions were 3, the vertex buffer
is the mapped chunking of the control points under the up direction's
transform, and the index buffer is the output of the index loop. -/
theorem build_some_inv (bcc : BinaryCurveCollection) (m : MeshData)
    (hb : build bcc = some m) :
    bcc.header.numberOfControlPoints ≤ USIZE_MAX ∧
    bcc.header.dimensions = 3 ∧
    ((bcc.header.upDirection = 1 ∧
        mapTriples yUp (chunks3 bcc.controlPoints) = some m.positions) ∨
      (bcc.header.upDirection = 2 ∧
        mapTriples zUp (chunks3 bcc.controlPoints) = some m.positions)) ∧
    buildIndicesLoop bcc.header.numberOfControlPoints
        ((windows2 bcc.firstControlPoints).zip bcc.looping) [] = some m.indices := by
  unfold build at hb
  split at hb
  · exact absurd hb (by simp)
  next husize =>
  simp only at hb
  split at hb
  · exact absurd hb (by simp)
  next vertices hvert =>
  split at hb
  · exact absurd hb (by simp)
  split at hb
  · exact absurd hb (by simp)
  next indices hloop =>
  simp only [Option.some.injEq] at hb
  subst hb
  refine ⟨by omega, ?_, ?_, hloop⟩
  · by_contra hdim
    rw [if_neg hdim] at hvert
    exact absurd hvert (by simp)
  · by_cases hdim : bcc.header.dimensions = 3
    · rw [if_pos hdim] at hvert
      by_cases hup1 : bcc.header.upDirection = 1
      · rw [if_pos hup1] at hvert
        exact Or.inl ⟨hup1, hvert⟩
      · rw [if_neg hup1] at hvert
        by_cases hup2 : bcc.header.upDirection = 2
        · rw [if_pos hup2] at hvert
          exact Or.inr ⟨hup2, hvert⟩
        · rw [if_neg hup2] at hvert
          exact absurd hvert (by simp)
    · rw [if_neg hdim] at hvert
      exact absurd hvert (by simp)

theorem yUp_some_length : ∀ (ch : List Nat) (t : Nat × Nat × Nat),
    yUp ch = some t → ch.length = 3
  | [_, _, _], _, _ => rfl
  | [], _, h => by simp [yUp] at h
  | [_], _, h => by simp [yUp] at h
  | [_, _], _, h => by simp [yUp] at h
  | _ :: _ :: _ :: _ :: _, _, h => by simp [yUp] at h

theorem zUp_some_length : ∀ (ch : List Nat) (t : Nat × Nat × Nat),
    zUp ch = some t → ch.length = 3
  | [_, _, _], _, _ => rfl
  | [], _, h => by simp [zUp] at h
  | [_], _, h => by simp [zUp] at h
  | [_, _], _, h => by simp [zUp] at h
  | _ :: _ :: _ :: _ :: _, _, h => by simp [zUp] at h

/-- When the chunked vertex mapping succeeds under a mapper that only
accepts 3-element chunks, the input length is exactly three times the
output length: one vertex per group of three floats. -/
theorem mapTriples_chunks3_length_aux (f : List Nat → Option (Nat × Nat × Nat))
    (hf : ∀ ch t, f ch = some t → ch.length = 3) :
    ∀ (n : Nat) (xs : List Nat), xs.length ≤ n →
      ∀ (ys : List (Nat × Nat × Nat)),
        mapTriples f (chunks3 xs) = some ys → xs.length = 3 * ys.length := by
  intro n
  induction n with
  | zero =>
    intro xs hxs ys h
    match xs, hxs with
    | [], _ =>
      simp only [chunks3, mapTriples, Option.some.injEq] at h
      subst h
      rfl
  | succ n ih =>
    intro xs hxs ys h
    match xs, hxs with
    | [], _ =>
      simp only [chunks3, mapTriples, Option.some.injEq] at h
      subst h
      rfl
    | [x], _ =>
      simp only [chunks3, mapTriples] at h
      split at h
      · exact absurd h (by simp)
      next t hft => exact absurd (hf _ _ hft) (by simp)
    | [x, y], _ =>
      simp only [chunks3, mapTriples] at h
      split at h
      · exact absurd h (by simp)
      next t hft => exact absurd (hf _ _ hft) (by simp)
    | x :: y :: z :: rest, hxs =>
      simp only [chunks3, mapTriples] at h
      split at h
      · exact absurd h (by simp)
      next t hft =>
      split at h
      · exact absurd h (by simp)
      next ts hts =>
      simp only [Option.some.injEq] at h
      subst h
      have := ih rest (by simp at hxs; omega) ts hts
      simp only [List.length_cons, this]
      omega

theorem mapTriples_chunks3_length (f : List Nat → Option (Nat × Nat × Nat))
    (hf : ∀ ch t, f ch = some t → ch.length = 3)
    (xs : List Nat) (ys : List (Nat × Nat × Nat))
    (h : mapTriples f (chunks3 xs) = some ys) : xs.length = 3 * ys.length :=
  mapTriples_chunks3_length_aux f hf xs.length xs le_rfl ys h

/-- Length of the index segments of a monotone offset table: ranges
telescope to `last - first`, the closing repeats count the looping curves,
and the separators count the curves whose end offset is not `p`. -/
theorem segment_flatten_length :
    ∀ (loops : List Bool) (firsts : List Nat) (p a : Nat),
      firsts.length = loops.length + 1 →
      List.Chain' (fun x y => x ≤ y) firsts →
      firsts.head? = some a →
      ∃ lv, firsts.getLast? = some lv ∧ a ≤ lv ∧
        ((((windows2 firsts).zip loops).map (indexSegment p)).flatten).length
          = (lv - a) + (loops.filter (fun b => b)).length
            + (((windows2 firsts).zip loops).filter (fun x => x.1.2 ≠ p)).length := by
  intro loops
  induction loops with
  | nil =>
    intro firsts p a hlen hchain hhead
    match firsts, hlen with
    | [a0], _ =>
      have ha : a0 = a := by simpa using hhead
      subst ha
      exact ⟨a0, rfl, le_rfl, by simp [windows2]⟩
  | cons lp loops ih =>
    intro firsts p a hlen hchain hhead
    match firsts, hlen with
    | a0 :: b :: t, hlen =>
      have ha : a0 = a := by simpa using hhead
      subst ha
      have hab : a0 ≤ b ∧ List.Chain' (fun x y => x ≤ y) (b :: t) :=
        List.chain'_cons.mp hchain
      obtain ⟨lv, hlast, hble, hacc⟩ :=
        ih (b :: t) p b (by simpa using hlen) hab.2 rfl
      refine ⟨lv, by rw [List.getLast?_cons_cons]; exact hlast, le_trans hab.1 hble, ?_⟩
      rw [windows2_cons_cons, List.zip_cons_cons, List.map_cons, List.flatten_cons,
        List.length_append, hacc, List.filter_cons, List.filter_cons]
      simp only [indexSegment, realSegment, List.length_append, List.length_range']
      cases lp <;> by_cases hbp : b = p <;>
        simp [hbp] <;> omega
    | [a0], hlen => simp at hlen

/-- Removing every occurrence of the restart sentinel from the concatenated
index segments leaves exactly the concatenated real (control-point)
segments, provided every window is within the `u32` bound and looping
windows are strictly increasing. -/
theorem filter_flatten_segments :
    ∀ (pairs : List ((Nat × Nat) × Bool)) (p : Nat),
      (∀ x ∈ pairs, x.1.1 ≤ x.1.2 ∧ (x.2 = true → x.1.1 < x.1.2) ∧ x.1.2 ≤ u32Max) →
      ((pairs.map (indexSegment p)).flatten).filter (fun v => v ≠ u32Max)
        = (pairs.map realSegment).flatten := by
  intro pairs
  induction pairs with
  | nil =>
    intro p h
    simp
  | cons hd tl ih =>
    intro p h
    obtain ⟨⟨l, r⟩, lp⟩ := hd
    have hlr : l ≤ r := (h _ (List.mem_cons_self _ _)).1
    have hstrict : lp = true → l < r := (h _ (List.mem_cons_self _ _)).2.1
    have hru : r ≤ u32Max := (h _ (List.mem_cons_self _ _)).2.2
    rw [List.map_cons, List.flatten_cons, List.filter_append, List.map_cons,
      List.flatten_cons, ih p (fun x hx => h x (List.mem_cons_of_mem _ hx))]
    congr 1
    simp only [indexSegment, realSegment, List.filter_append]
    have hrange : (List.range' l (r - l)).filter (fun v => v ≠ u32Max)
        = List.range' l (r - l) := by
      rw [List.filter_eq_self]
      intro v hv
      have := List.mem_range'_1.mp hv
      simp only [decide_eq_true_eq]
      omega
    have hclose : ((if lp = true then [l] else []) : List Nat).filter (fun v => v ≠ u32Max)
        = (if lp = true then [l] else []) := by
      cases lp
      · simp
      · have hlt := hstrict rfl
        have hlne : l ≠ u32Max := by omega
        simp [hlne]
    have hsep : ((if r = p then [] else [u32Max]) : List Nat).filter (fun v => v ≠ u32Max)
        = [] := by
      by_cases hrp : r = p <;> simp [hrp]
    rw [hrange, hclose, hsep, List.append_nil]

/-- C1: a byte source with a valid `BCC` signature but precision byte
`0x45` makes `parse` return `InvalidSignature`, not `InvalidPrecision`; a
source with valid signature and precision but curve-type bytes `XX` also
returns `InvalidSignature`, not `InvalidCurve`.  This contradicts the claim
(and the doc comments of the error enum in lib.rs): both mismatch branches
in reader.rs construct `InvalidSignature`. -/
theorem parse_precision_and_curve_mismatch_return_invalid_signature :
    parse badPrecisionInput = .err .invalidSignature ∧
      parse badCurveInput = .err .invalidSignature := by
  exact ⟨rfl, rfl⟩

/-- C2: on the collection decoded from a valid file with zero curves and
zero control points, the geometry builder panics instead of producing an
empty index buffer: the capacity computation `0 + 0 + 0 - 1` wraps to
`usize::MAX` (it would panic outright with debug assertions on) and
`Vec::with_capacity` then aborts with a capacity overflow. -/
theorem build_zero_curves_panics :
    parse emptyCollectionInput = .ok emptyCollection ∧
      emptyCollection.looping.length = 0 ∧
      build emptyCollection = none := by
  exact ⟨rfl, rfl, rfl⟩

/-- C10: there is an input with a valid header on which `parse` panics
rather than returning a typed error: the header declares zero control
points, the single curve record asks for one point, and the slice
`control_points[..3]` of the empty flat buffer is out of range. -/
theorem parse_overrun_panics : parse overrunInput = .panic := by
  exact rfl

/-- C4 counterexample: for the per-curve encoded count `i32::MIN` (bytes
`00 00 00 80`), the magnitude `2 ^ 31` is representable in the host
`usize`, yet `parse` returns `TooManyControlPoints` for that curve: the
wrapping `i32::abs` leaves the value negative and the `usize` conversion
fails.  This refutes the claim that the error is returned only when `|n|`
is not representable. -/
theorem parse_min_count_errs_although_representable :
    parse minCountInput = .err .tooManyControlPoints ∧
      toI32 (fromLeBytes [0, 0, 0, 128]) = -(2 ^ 31) ∧
      (toI32 (fromLeBytes [0, 0, 0, 128])).natAbs = 2 ^ 31 ∧
      2 ^ 31 ≤ USIZE_MAX := by
  refine ⟨rfl, by decide, by decide, by decide⟩

/-- C5 counterexample: `parse` succeeds on a file whose header declares one
control point but whose single curve carries none; the resulting
`first_control_points` is `[0, 0]`, so its last entry differs from the
header's declared total.  The decoder never cross-checks the running offset
against the declared count. -/
theorem parse_short_sum_last_offset_differs :
    parse shortSumInput = .ok shortSumCollection ∧
      shortSumCollection.firstControlPoints.getLastD 0 = 0 ∧
      shortSumCollection.header.numberOfControlPoints = 1 ∧
      shortSumCollection.firstControlPoints.getLastD 0 ≠
        shortSumCollection.header.numberOfControlPoints := by
  exact ⟨rfl, rfl, rfl, by decide⟩

/-- C6 counterexample: a valid collection with 2 curves, 3 control points
and 0 looping curves whose first curve already ends at the total offset
gets an index buffer of length 3, not 3 + 0 + (2 - 1) = 4: the builder
emits no restart separator after a curve whose end offset equals the total
control-point count, even when it is not the last curve. -/
theorem build_trailing_empty_curve_length_differs :
    parse trailingEmptyCurveInput = .ok trailingEmptyCurveCollection ∧
      build trailingEmptyCurveCollection = some trailingEmptyCurveMeshData ∧
      trailingEmptyCurveMeshData.indices.length = 3 ∧
      trailingEmptyCurveCollection.header.numberOfControlPoints +
          (trailingEmptyCurveCollection.looping.filter (fun b => b)).length +
          (trailingEmptyCurveCollection.looping.length - 1) = 4 ∧
      (3 : Nat) ≠ 4 := by
  exact ⟨rfl, rfl, rfl, rfl, by decide⟩

end BCC

namespace BCC

/-- C9: the blocking decode `parse` and the suspending decode `parse_async`
compute the same function of the input byte stream: for every input they
return the same error or bit-identical collections (header fields, looping
flags, offsets and control-point values). -/
theorem parseAsync_eq_parse : ∀ (input : List Nat), parseAsync input = parse input := by
  intro input
  simp only [parseAsync, parse, readCurvesAsync_eq_readCurves]

/-- C5 (amended): for every input on which `parse` succeeds, the
`first_control_points` array has length curve count + 1, starts at 0 and is
monotonically non-decreasing; its last entry is the running sum of the
per-curve point counts, which is at most the header's declared control-point
count but need not equal it (the decoder performs no cross-check). -/
theorem parse_first_control_points_invariants (input : List Nat)
    (c : BinaryCurveCollection) (hp : parse input = .ok c) :
    c.firstControlPoints.length = c.looping.length + 1 ∧
    c.looping.length = c.header.numberOfCurves ∧
    c.firstControlPoints.head? = some 0 ∧
    List.Chain' (fun a b => a ≤ b) c.firstControlPoints ∧
    c.firstControlPoints.getLastD 0 ≤ c.header.numberOfControlPoints := by
  obtain ⟨s8, s9, loops, firsts, cps, hrc, hl, hf, hcp, hplt, hnlt, hcap, hu1, hu2⟩ :=
    parse_ok_inv input c hp
  obtain ⟨l1, l2, l3, l4, l5, lastVal, hlast, hge, hrem, hcps⟩ :=
    readCurves_ok_inv _ _ _ _ _ _ _ _ hrc
  subst hl
  subst hf
  refine ⟨by omega, l1, l3, l4, ?_⟩
  rw [List.getLastD_eq_getLast?, hlast, Option.getD_some]
  have hmodle : (c.header.numberOfControlPoints * 3) % U64MOD ≤
      c.header.numberOfControlPoints * 3 := Nat.mod_le _ _
  omega

/-- C5 witness. -/
theorem parse_first_control_points_invariants_witness :
    exCollection.firstControlPoints.getLastD 0 ≤
      exCollection.header.numberOfControlPoints :=
  (parse_first_control_points_invariants exInput exCollection rfl).2.2.2.2

/-- C7: for every collection produced by `parse` on which `build` succeeds,
the index buffer is exactly the concatenation, in curve order, of the
per-curve segments: the ascending indices `l, ..., r-1` of the curve's
range, then `l` again when the curve is looping, then the restart sentinel
when `r` differs from the total control-point count. -/
theorem build_indices_concatenation (input : List Nat) (c : BinaryCurveCollection)
    (m : MeshData) (_hp : parse input = .ok c) (hb : build c = some m) :
    m.indices = (((windows2 c.firstControlPoints).zip c.looping).map
        (indexSegment c.header.numberOfControlPoints)).flatten := by
  obtain ⟨-, -, -, hloop⟩ := build_some_inv c m hb
  obtain ⟨hres, -⟩ := buildIndicesLoop_some _ _ _ _ hloop
  simpa using hres

/-- C7 witness. -/
theorem build_indices_concatenation_witness :
    exMeshData.indices = (((windows2 exCollection.firstControlPoints).zip
        exCollection.looping).map
        (indexSegment exCollection.header.numberOfControlPoints)).flatten :=
  build_indices_concatenation exInput exCollection exMeshData rfl rfl

/-- C3: for every collection produced by `parse`, whenever `build` returns
an index buffer, deleting every occurrence of the `u32::MAX` restart
sentinel from it leaves exactly the control-point index segments — so the
sentinel occurs only as a separator and is never emitted as a control-point
index; and whenever some curve end offset would need `u32::MAX` or more as
an index, `build` aborts (the `u32::try_from` capacity panic) instead of
producing a buffer. -/
theorem build_sentinel_only_separator (input : List Nat) (c : BinaryCurveCollection)
    (hp : parse input = .ok c) :
    (∀ m : MeshData, build c = some m →
      m.indices.filter (fun v => v ≠ u32Max)
        = (((windows2 c.firstControlPoints).zip c.looping).map realSegment).flatten) ∧
    (∀ x ∈ (windows2 c.firstControlPoints).zip c.looping,
      u32Max < x.1.2 → build c = none) := by
  obtain ⟨s8, s9, loops, firsts, cps, hrc, hl, hf, hcp, hplt, hnlt, hcap, hu1, hu2⟩ :=
    parse_ok_inv input c hp
  obtain ⟨l1, l2, l3, l4, l5, lastVal, hlast, hge, hrem, hcps⟩ :=
    readCurves_ok_inv _ _ _ _ _ _ _ _ hrc
  subst hl
  subst hf
  constructor
  · intro m hb
    obtain ⟨-, -, -, hloop⟩ := build_some_inv c m hb
    obtain ⟨hres, hbounds⟩ := buildIndicesLoop_some _ _ _ _ hloop
    rw [hres, List.nil_append]
    apply filter_flatten_segments
    intro x hx
    exact ⟨(l5 x hx).1, (l5 x hx).2, (hbounds x hx).2⟩
  · intro x hx hbig
    unfold build
    split
    · rfl
    simp only
    split
    · rfl
    split
    · rfl
    rw [buildIndicesLoop_overflow _ _ _ x hx hbig]

/-- C3 witness. -/
theorem build_sentinel_only_separator_witness :
    exMeshData.indices.filter (fun v => v ≠ u32Max)
      = (((windows2 exCollection.firstControlPoints).zip
          exCollection.looping).map realSegment).flatten :=
  (build_sentinel_only_separator exInput exCollection rfl).1 exMeshData rfl

end BCC

namespace BCC

/-- C6 (amended): for every collection produced by `parse` on which `build`
succeeds, the index buffer length is the final control-point offset (the
running sum of per-curve counts) plus the number of looping curves plus the
number of curves whose end offset differs from the declared total.  This
equals `p + k + (n - 1)` exactly when the sum of counts is `p` and only the
last curve ends at offset `p`; a curve before the last ending at `p`
suppresses its separator (see the counterexample). -/
theorem build_indices_length_formula (input : List Nat) (c : BinaryCurveCollection)
    (m : MeshData) (hp : parse input = .ok c) (hb : build c = some m) :
    m.indices.length = c.firstControlPoints.getLastD 0
      + (c.looping.filter (fun b => b)).length
      + (((windows2 c.firstControlPoints).zip c.looping).filter
          (fun x => x.1.2 ≠ c.header.numberOfControlPoints)).length := by
  obtain ⟨s8, s9, loops, firsts, cps, hrc, hl, hf, hcp, hplt, hnlt, hcap, hu1, hu2⟩ :=
    parse_ok_inv input c hp
  obtain ⟨l1, l2, l3, l4, l5, lastVal, hlast, hge, hrem, hcps⟩ :=
    readCurves_ok_inv _ _ _ _ _ _ _ _ hrc
  subst hl
  subst hf
  obtain ⟨-, -, -, hloop⟩ := build_some_inv c m hb
  obtain ⟨hres, -⟩ := buildIndicesLoop_some _ _ _ _ hloop
  obtain ⟨lv, hlv, hle0, hlen⟩ :=
    segment_flatten_length c.looping c.firstControlPoints
      c.header.numberOfControlPoints 0 (by omega) l4 l3
  rw [hres, List.nil_append, hlen, List.getLastD_eq_getLast?, hlv, Option.getD_some]
  omega

/-- C6 witness. -/
theorem build_indices_length_formula_witness :
    exMeshData.indices.length = exCollection.firstControlPoints.getLastD 0
      + (exCollection.looping.filter (fun b => b)).length
      + (((windows2 exCollection.firstControlPoints).zip exCollection.looping).filter
          (fun x => x.1.2 ≠ exCollection.header.numberOfControlPoints)).length :=
  build_indices_length_formula exInput exCollection exMeshData rfl rfl

theorem mul3_mod_u64_inj (p L : Nat) (hp : p < U64MOD)
    (h : p * 3 % U64MOD = 3 * L) : L = p := by
  rcases Nat.lt_or_ge (p * 3) U64MOD with hlt | hge
  · rw [Nat.mod_eq_of_lt hlt] at h
    omega
  · rcases Nat.lt_or_ge (p * 3) (U64MOD * 2) with hlt2 | hge2
    · have hmod : p * 3 % U64MOD = p * 3 - U64MOD := by
        rw [Nat.mod_eq_sub_mod hge, Nat.mod_eq_of_lt (by omega)]
      rw [hmod] at h
      clear hmod
      have h3 : U64MOD = 3 * 6148914691236517205 + 1 := by norm_num [U64MOD]
      omega
    · have hlt3 : p * 3 < U64MOD * 3 := by omega
      have hmod : p * 3 % U64MOD = p * 3 - U64MOD - U64MOD := by
        rw [Nat.mod_eq_sub_mod hge, Nat.mod_eq_sub_mod (by omega),
          Nat.mod_eq_of_lt (by omega)]
      rw [hmod] at h
      clear hmod
      have h3 : U64MOD = 3 * 6148914691236517205 + 1 := by norm_num [U64MOD]
      omega

/-- C8: for every collection produced by `parse` on which `build` succeeds,
the vertex buffer has exactly one 3-component vertex per control point, in
control-point order: the chunked mapping under Y-up (pass-through) when the
up direction is 1 and under Z-up (`(x, y, z)` to `(x, -z, y)`) when it is
2; in particular the Z-up point `(1, 2, 3)` becomes the vertex
`(1, -3, 2)` (`f32` bit patterns shown). -/
theorem build_vertices (input : List Nat) (c : BinaryCurveCollection)
    (m : MeshData) (hp : parse input = .ok c) (hb : build c = some m) :
    3 * m.positions.length = c.controlPoints.length ∧
    m.positions.length = c.header.numberOfControlPoints ∧
    (c.header.upDirection = 1 →
      mapTriples yUp (chunks3 c.controlPoints) = some m.positions) ∧
    (c.header.upDirection = 2 →
      mapTriples zUp (chunks3 c.controlPoints) = some m.positions) ∧
    zUp [0x3F800000, 0x40000000, 0x40400000] =
      some (0x3F800000, 0xC0400000, 0x40000000) := by
  obtain ⟨s8, s9, loops, firsts, cps, hrc, hl, hf, hcp, hplt, hnlt, hcap, hu1, hu2⟩ :=
    parse_ok_inv input c hp
  obtain ⟨l1, l2, l3, l4, l5, lastVal, hlast, hge, hrem, hcps⟩ :=
    readCurves_ok_inv _ _ _ _ _ _ _ _ hrc
  obtain ⟨husize, hdim, hvert, -⟩ := build_some_inv c m hb
  have hculen : c.controlPoints.length =
      (c.header.numberOfControlPoints * 3) % U64MOD := by
    rw [hcp]
    simp only [List.length_append, List.length_replicate]
    omega
  have hmul : c.controlPoints.length = 3 * m.positions.length := by
    rcases hvert with ⟨-, hmapeq⟩ | ⟨-, hmapeq⟩
    · exact mapTriples_chunks3_length yUp yUp_some_length _ _ hmapeq
    · exact mapTriples_chunks3_length zUp zUp_some_length _ _ hmapeq
  refine ⟨hmul.symm, ?_, ?_, ?_, rfl⟩
  · rw [hculen] at hmul
    exact mul3_mod_u64_inj c.header.numberOfControlPoints m.positions.length hplt hmul
  · intro hup
    rcases hvert with ⟨-, hmapeq⟩ | ⟨hup2, -⟩
    · exact hmapeq
    · rw [hup] at hup2
      exact absurd hup2 (by norm_num)
  · intro hup
    rcases hvert with ⟨hup1, -⟩ | ⟨-, hmapeq⟩
    · rw [hup] at hup1
      exact absurd hup1 (by norm_num)
    · exact hmapeq

/-- C8 witness. -/
theorem build_vertices_witness :
    mapTriples zUp (chunks3 exCollection.controlPoints) = some exMeshData.positions :=
  (build_vertices exInput exCollection exMeshData rfl rfl).2.2.2.1 rfl

end BCC

namespace BCC

theorem toI32_bounds (v : Nat) : -(2 ^ 31) ≤ toI32 v ∧ toI32 v < 2 ^ 31 := by
  unfold toI32
  have hm : v % 2 ^ 32 < 2 ^ 32 := Nat.mod_lt _ (by decide)
  split <;> omega

/-- C4 (amended): for every per-curve 4-byte little-endian signed count
whose value is not `i32::MIN`, one decoder step behaves exactly as the spec
says: the looping flag is `n < 0`, the point count is `|n|`, and no
`TooManyControlPoints` can arise (every such `|n|` fits the 64-bit
`usize`).  For the value `i32::MIN` the decoder returns
`TooManyControlPoints` even though `2 ^ 31` is representable: the wrapping
`i32::abs` keeps the count negative and the `usize` conversion fails. -/
theorem readCurves_step_matches_spec_away_from_min (b0 b1 b2 b3 : Nat)
    (rest : List Nat) (fuel offset rem : Nat) :
    (toI32 (fromLeBytes [b0, b1, b2, b3]) = -(2 ^ 31) →
      readCurves (fuel + 1) (b0 :: b1 :: b2 :: b3 :: rest) offset rem
        = .err .tooManyControlPoints) ∧
    (toI32 (fromLeBytes [b0, b1, b2, b3]) ≠ -(2 ^ 31) →
      readCurves (fuel + 1) (b0 :: b1 :: b2 :: b3 :: rest) offset rem
        = readCurvesStepSpec b0 b1 b2 b3 rest fuel offset rem) := by
  have h4 : 4 ≤ (b0 :: b1 :: b2 :: b3 :: rest).length := by
    simp only [List.length_cons]
    omega
  have hre : readExact 4 (b0 :: b1 :: b2 :: b3 :: rest) = some ([b0, b1, b2, b3], rest) := by
    rw [readExact, if_pos h4]
    rfl
  constructor
  · intro hmin
    simp only [readCurves, hre]
    rw [hmin]
    have habs : i32AbsWrapping (-(2 ^ 31)) = -(2 ^ 31) := by
      unfold i32AbsWrapping
      rw [if_pos rfl]
    rw [habs, if_pos (by norm_num)]
  · intro hmin
    obtain ⟨hlo, hhi⟩ := toI32_bounds (fromLeBytes [b0, b1, b2, b3])
    have habs : i32AbsWrapping (toI32 (fromLeBytes [b0, b1, b2, b3]))
        = ((toI32 (fromLeBytes [b0, b1, b2, b3])).natAbs : Int) := by
      unfold i32AbsWrapping
      rw [if_neg hmin]
      split <;> omega
    have hnotneg : ¬(i32AbsWrapping (toI32 (fromLeBytes [b0, b1, b2, b3])) < 0) := by
      rw [habs]
      omega
    have htoNat : (i32AbsWrapping (toI32 (fromLeBytes [b0, b1, b2, b3]))).toNat
        = (toI32 (fromLeBytes [b0, b1, b2, b3])).natAbs := by
      rw [habs]
      omega
    have hfits : ¬(USIZE_MAX < (toI32 (fromLeBytes [b0, b1, b2, b3])).natAbs) := by
      have : ((toI32 (fromLeBytes [b0, b1, b2, b3])).natAbs : Int) ≤ 2 ^ 31 := by omega
      have hU : USIZE_MAX = 2 ^ 64 - 1 := rfl
      omega
    simp only [readCurves, readCurvesStepSpec, hre]
    rw [if_neg hnotneg, if_neg hfits, htoNat]

/-- C4 witness: the step applied to the concrete bytes of `i32::MIN`. -/
theorem readCurves_step_min_witness :
    readCurves 1 [0, 0, 0, 128] 0 0 = .err .tooManyControlPoints :=
  (readCurves_step_matches_spec_away_from_min 0 0 0 128 [] 0 0 0).1 (by decide)

end BCC
